import Mathlib

/-!
Verification development for the bash-command normalizer
(`bashlex/normalizer.py`): a shallow embedding of the normalizer's data
model and operations, together with theorems settling the specified
properties.  Python exceptions are made explicit as an error type;
the mutable node graph (parent / left-sibling / right-sibling pointers
plus ordered child lists) is embedded as a heap of node records indexed
by natural numbers, updated functionally in the same statement order as
the source.
-/

set_option maxRecDepth 10000

namespace Normalizer

/-- The exception classes that can be raised by the embedded code.
`valueError` models Python `ValueError` (the only class caught around the
tree builder); `typeError` models the effect of `raise("...")`, i.e.
raising a plain string, which is a `TypeError` in Python ≥ 2.6;
`systemExit` models `sys.exit()`; `indexError` and `attributeError`
model out-of-range indexing and missing-attribute access. -/
inductive PyExc where
  | valueError (msg : String)
  | typeError (msg : String)
  | systemExit
  | indexError
  | attributeError
deriving Repr, DecidableEq

/-- The exception classes raised by the external `bparser.parse` that
`normalize_ast` catches (lines 581-602 of the source): these five classes
each yield `return None`. -/
inductive ParserExc where
  | matchedPairError
  | parsingError
  | notImplementedError
  | indexError
  | attributeError
deriving Repr, DecidableEq

/-- A raw bashlex AST node (the external parser's output, consumed
read-only).  `hasParts` models Python `hasattr(node, 'parts')`; when it is
`false` the `parts` list is irrelevant (the attribute is absent).  For
`commandsubstitution` / `processsubstitution` raw nodes the source reads
`node.command`; we store that single nested node as the head of `parts`. -/
inductive RawNode where
  | mk (kind : String) (word : String) (pos : Int × Int)
       (hasParts : Bool) (parts : List RawNode)
deriving Repr

def RawNode.kind : RawNode → String
  | .mk k _ _ _ _ => k

def RawNode.word : RawNode → String
  | .mk _ w _ _ _ => w

def RawNode.pos : RawNode → Int × Int
  | .mk _ _ p _ _ => p

def RawNode.hasParts : RawNode → Bool
  | .mk _ _ _ h _ => h

def RawNode.parts : RawNode → List RawNode
  | .mk _ _ _ _ ps => ps

/-! ## Value Normalizer (quote recovery and digit folding) -/

/-- Function `with_quotation(node)`: the original span is exactly two characters
longer than the bare token (source line 358-359).  Positions are Python
integers, so the arithmetic is over `Int`. -/
def with_quotation (node : RawNode) : Bool :=
  node.pos.2 - node.pos.1 - (node.word.length : Int) == 2

/-- Python slice `cmd[a : b]` for the non-negative indices that occur in
token spans. -/
def sliceStr (cmd : List Char) (a b : Int) : List Char :=
  (cmd.drop a.toNat).take (b - a).toNat

/-- Function `recover_quotation(node)` (source lines 361-365): the exact original
substring when `with_quotation`, otherwise the bare token. -/
def recover_quotation (cmd : List Char) (node : RawNode) : String :=
  if with_quotation node then ⟨sliceStr cmd node.pos.1 node.pos.2⟩
  else node.word

/-- Modelled from the spec: the external `bash._DIGIT_RE` / `bash._NUM`
are not in the repository; per the spec every maximal run of digits is
replaced by the single placeholder `_NUM`.  The `Bool` argument records
whether the previous character was a digit (inside a run). -/
def foldDigitsAux : Bool → List Char → List Char
  | _, [] => []
  | prevDigit, c :: cs =>
    if c.isDigit then
      if prevDigit then foldDigitsAux true cs
      else ('_' :: 'N' :: 'U' :: 'M' :: []) ++ foldDigitsAux true cs
    else c :: foldDigitsAux false cs

def foldDigits (w : String) : String :=
  ⟨foldDigitsAux false w.data⟩

/-- The external command/option catalogue (`bash.is_headcommand`,
`bash.is_option`) together with the original command string and the
digit-folding switch.  Quote recovery is always performed because the
nested `def recover_quotation` shadows the boolean parameter of the same
name in `normalize_ast`, so `recover_quote` is always truthy. -/
structure Ctx where
  isHeadcommand : String → Bool
  isOption : String → Bool
  cmd : List Char
  normalizeDigits : Bool

/-- Function `normalize_word` (source lines 354-356). -/
def normalize_word (ctx : Ctx) (node : RawNode) : String :=
  let w := recover_quotation ctx.cmd node
  if ctx.normalizeDigits && !(ctx.isOption w) then foldDigits w else w

/-! ## Normalized tree (pure view) and the Serializer -/

/-- A normalized tree node as observed through `kind` / `value` /
`children` (the view used by `to_list`, `pretty_print`, `to_command`). -/
inductive NTree where
  | mk (kind : String) (value : String) (children : List NTree)
deriving Repr

def NTree.kind : NTree → String
  | .mk k _ _ => k

def NTree.value : NTree → String
  | .mk _ v _ => v

def NTree.children : NTree → List NTree
  | .mk _ _ cs => cs

/-- Property `Node.symbol` (source lines 146-148): `kind.upper() + "_" + value`,
written out at character level. -/
def symbolStr (k v : String) : String :=
  ⟨(k.data.map Char.toUpper) ++ '_' :: v.data⟩

/-- The end-of-children marker emitted by `to_list`. -/
def noExpand : String := "<NO_EXPAND>"

mutual
/-- Function `to_list(node, 'dfs', list)` (source lines 203-210): pre-order symbol,
then the children, then one `<NO_EXPAND>` marker.  The accumulator-append
style of the source is rendered as list concatenation. -/
def toList : NTree → List String
  | .mk k v cs => symbolStr k v :: (toListF cs ++ [noExpand])

def toListF : List NTree → List String
  | [] => []
  | c :: cs => toList c ++ toListF cs
end

/-- Python `symbol.split('_', 1)` at character level: split at the first
underscore; `none` when there is no underscore (in which case the
two-target unpacking in the source raises `ValueError`). -/
def splitOnceCh : List Char → Option (List Char × List Char)
  | [] => none
  | c :: cs =>
    if c = '_' then some ([], cs)
    else (splitOnceCh cs).map (fun p => (c :: p.1, p.2))

def splitOnce (s : String) : Option (String × String) :=
  (splitOnceCh s.data).map (fun p => (⟨p.1⟩, ⟨p.2⟩))

/-- A cursor frame of `list_to_tree`: the node currently being built
(children collected so far).  The source keeps a `current` pointer and
attaches children on creation; popping a frame appends the completed
subtree to its parent frame, which yields the same child lists in the
same order. -/
structure Frame where
  kind : String
  value : String
  children : List NTree
deriving Repr

def closeFrame (f : Frame) : NTree :=
  .mk f.kind f.value f.children

/-- At end of input the source simply returns the root, with all nodes
created so far already attached: collapse the open frames outward. -/
def collapseFrames : Frame → List Frame → NTree
  | top, [] => closeFrame top
  | top, g :: stk =>
    collapseFrames ⟨g.kind, g.value, g.children ++ [closeFrame top]⟩ stk

/-- The loop of `list_to_tree` (source lines 291-302).  An ascend on an
empty stack models `current = current.parent` turning `current` into
`None` at the root: the next iteration hits `if not current: break` and
the root is returned as built, silently ignoring the remaining symbols. -/
def listToTreeAux : List String → Frame → List Frame → Except PyExc NTree
  | [], top, stk => .ok (collapseFrames top stk)
  | s :: rest, top, stk =>
    if s = noExpand then
      match stk with
      | [] => .ok (closeFrame top)
      | g :: stk2 =>
        listToTreeAux rest ⟨g.kind, g.value, g.children ++ [closeFrame top]⟩ stk2
    else
      match splitOnce s with
      | none => .error (.valueError "need 2 values to unpack")
      | some (k, v) =>
        listToTreeAux rest ⟨⟨k.data.map Char.toLower⟩, v, []⟩ (top :: stk)

/-- Function `list_to_tree(list, 'dfs')` (source lines 286-305): a fresh root with
kind `"root"` and value `"root"`; the loop starts at index 1, skipping
the first symbol. -/
def list_to_tree (l : List String) : Except PyExc NTree :=
  listToTreeAux l.tail ⟨"root", "root", []⟩ []

/-! ## Node Model: the mutable node graph as a heap of records

The source's `Node` objects carry `kind`, `value`, `parent`, `lsb`, `rsb`
pointers and an ordered `children` list, all mutated in place.  We embed
the object graph as a partial map from node identifiers to records,
updated functionally in source statement order. -/

structure NodeData where
  kind : String
  value : String
  parent : Option Nat
  lsb : Option Nat
  rsb : Option Nat
  children : List Nat
deriving Repr, DecidableEq

/-- The object heap plus the next fresh identifier. -/
structure St where
  heap : Nat → Option NodeData
  next : Nat

def getNode (st : St) (i : Nat) : Option NodeData :=
  st.heap i

def setNode (st : St) (i : Nat) (d : NodeData) : St :=
  ⟨fun j => if j = i then some d else st.heap j, st.next⟩

/-- The field assignment `node.rsb = r` on the node with id `i`. -/
def setRsb (st : St) (i : Nat) (r : Option Nat) : St :=
  match getNode st i with
  | none => st
  | some d => setNode st i ⟨d.kind, d.value, d.parent, d.lsb, r, d.children⟩

/-- The field assignment `node.lsb = l` on the node with id `i`. -/
def setLsb (st : St) (i : Nat) (l : Option Nat) : St :=
  match getNode st i with
  | none => st
  | some d => setNode st i ⟨d.kind, d.value, d.parent, l, d.rsb, d.children⟩

/-- Function `make_sibling(lsb, rsb)` (source lines 325-329): set `lsb.rsb` and
`rsb.lsb` when the respective argument is not `None`. -/
def make_sibling (st : St) (l r : Option Nat) : St :=
  let st1 :=
    match l with
    | none => st
    | some li => setRsb st li r
  match r with
  | none => st1
  | some ri => setLsb st1 ri l

/-- Method `Node.removeChild` (source lines 140-141) uses `list.remove`, which
raises `ValueError` when the element is absent, and otherwise deletes the
first occurrence. -/
def removeChild (st : St) (p c : Nat) : Except PyExc St :=
  match getNode st p with
  | none => .error .attributeError
  | some pd =>
    if c ∈ pd.children then
      .ok (setNode st p ⟨pd.kind, pd.value, pd.parent, pd.lsb, pd.rsb, pd.children.erase c⟩)
    else .error (.valueError "list.remove(x): x not in list")

/-- Node construction followed by `attach_to_tree(node, parent)` (source
lines 318-323): `node.parent = parent`, `node.lsb = parent.getRightChild()`,
`parent.addChild(node)`, and when the new node has a left sibling, that
sibling's `rsb` is pointed at the new node.  Returns the fresh id. -/
def attachNew (st : St) (k v : String) (p : Nat) : Except PyExc (St × Nat) :=
  match getNode st p with
  | none => .error .attributeError
  | some pd =>
    let n := st.next
    let lsb := pd.children.getLast?
    let st1 := setNode st n ⟨k, v, some p, lsb, none, []⟩
    let st2 := setNode st1 p ⟨pd.kind, pd.value, pd.parent, pd.lsb, pd.rsb, pd.children ++ [n]⟩
    let st3 :=
      match lsb with
      | none => st2
      | some li =>
        match getNode st2 li with
        | none => st2
        | some ld => setNode st2 li ⟨ld.kind, ld.value, ld.parent, ld.lsb, some n, ld.children⟩
    .ok (⟨st3.heap, n + 1⟩, n)

/-! ## Logic-Operator Rewriter (the second pass of `normalize_command`) -/

/-- One step of the unary folding loop (source lines 434-446), for the
recorded operator `n`.  The returned `Bool` is `true` when the operator
has no right sibling: the source prints a warning and executes `return`,
leaving `normalize_command` immediately. -/
def foldUnaryStep (st : St) (n : Nat) : Except PyExc (St × Bool) :=
  match getNode st n with
  | none => .error .attributeError
  | some nd =>
    match nd.rsb with
    | none => .ok (st, true)
    | some r =>
      match getNode st r with
      | none => .error .attributeError
      | some rd =>
        -- make_sibling(node, rsb.rsb)
        let st1 := make_sibling st (some n) rd.rsb
        -- node.parent.removeChild(rsb)
        match nd.parent with
        | none => .error .attributeError
        | some p => do
          let st2 ← removeChild st1 p r
          -- rsb.parent = node; rsb.lsb = None; rsb.rsb = None
          match getNode st2 r with
          | none => .error .attributeError
          | some rd2 =>
            let st3 := setNode st2 r ⟨rd2.kind, rd2.value, some n, none, none, rd2.children⟩
            -- node.addChild(rsb)
            match getNode st3 n with
            | none => .error .attributeError
            | some nd3 =>
              .ok (setNode st3 n
                ⟨nd3.kind, nd3.value, nd3.parent, nd3.lsb, nd3.rsb, nd3.children ++ [r]⟩, false)

/-- The unary folding loop over the recorded operators, in recording
order; stops with `true` (early `return`) at the first operator whose
right sibling is missing. -/
def foldUnaryOps : St → List Nat → Except PyExc (St × Bool)
  | st, [] => .ok (st, false)
  | st, n :: rest => do
    let r ← foldUnaryStep st n
    if r.2 then .ok (r.1, true) else foldUnaryOps r.1 rest

/-- One step of the binary folding loop (source lines 448-467) for the
recorded operator `n`: a missing left or right sibling is `sys.exit()`;
otherwise both siblings are absorbed as the operator's children in the
order left, right, with the surrounding sibling pointers re-linked. -/
def foldBinaryStep (st : St) (n : Nat) : Except PyExc St :=
  match getNode st n with
  | none => .error .attributeError
  | some nd =>
    match nd.rsb, nd.lsb with
    | none, _ => .error .systemExit
    | _, none => .error .systemExit
    | some r, some l =>
      match getNode st r with
      | none => .error .attributeError
      | some rd =>
        -- make_sibling(node, rsb.rsb)
        let st1 := make_sibling st (some n) rd.rsb
        match getNode st1 l with
        | none => .error .attributeError
        | some ld1 =>
          -- make_sibling(lsb.lsb, node)  (lsb.lsb read after the first re-link)
          let st2 := make_sibling st1 ld1.lsb (some n)
          match nd.parent with
          | none => .error .attributeError
          | some p => do
            -- node.parent.removeChild(rsb); node.parent.removeChild(lsb)
            let st3 ← removeChild st2 p r
            let st4 ← removeChild st3 p l
            -- rsb.parent = node; lsb.parent = node
            match getNode st4 r with
            | none => .error .attributeError
            | some rd4 =>
              let st5 := setNode st4 r ⟨rd4.kind, rd4.value, some n, rd4.lsb, rd4.rsb, rd4.children⟩
              match getNode st5 l with
              | none => .error .attributeError
              | some ld5 =>
                let st6 := setNode st5 l ⟨ld5.kind, ld5.value, some n, ld5.lsb, ld5.rsb, ld5.children⟩
                -- make_sibling(lsb, rsb)
                let st7 := make_sibling st6 (some l) (some r)
                -- rsb.rsb = None
                match getNode st7 r with
                | none => .error .attributeError
                | some rd7 =>
                  let st8 := setNode st7 r ⟨rd7.kind, rd7.value, rd7.parent, rd7.lsb, none, rd7.children⟩
                  -- lsb.lsb = None
                  match getNode st8 l with
                  | none => .error .attributeError
                  | some ld8 =>
                    let st9 := setNode st8 l ⟨ld8.kind, ld8.value, ld8.parent, none, ld8.rsb, ld8.children⟩
                    -- node.addChild(lsb); node.addChild(rsb)
                    match getNode st9 n with
                    | none => .error .attributeError
                    | some nd9 =>
                      .ok (setNode st9 n
                        ⟨nd9.kind, nd9.value, nd9.parent, nd9.lsb, nd9.rsb,
                          nd9.children ++ [l, r]⟩)

/-- The binary folding loop over the recorded operators, in recording
order. -/
def foldBinaryOps : St → List Nat → Except PyExc St
  | st, [] => .ok st
  | st, n :: rest => do
    let st' ← foldBinaryStep st n
    foldBinaryOps st' rest

/-- The whole second pass of `normalize_command`: the unary loop, and —
unless it executed the early `return` — the binary loop. -/
def secondPass (st : St) (uops bops : List Nat) : Except PyExc St := do
  let r ← foldUnaryOps st uops
  if r.2 then .ok r.1 else foldBinaryOps r.1 bops

/-! ## Tree Builder: token classification and the command state machine -/

def unary_logic_operators : List String := ["!", "-not"]

def binary_logic_operators : List String := ["-and", "-or", "||", "&&", "-o", "-a"]

/-- Function `is_unary_logic_op(node, parent)` (source lines 57-60): `!` is a true
operator only under a `find` head command; `-not` unconditionally. -/
def is_unary_logic_op (st : St) (w : String) (parent : Nat) : Bool :=
  if w = "!" then
    match getNode st parent with
    | some d => d.kind == "headcommand" && d.value == "find"
    | none => false
  else unary_logic_operators.contains w

/-- Function `is_binary_logic_op(node, parent)` (source lines 62-75).  For `-o` /
`-a` under a `find` head command the source rewrites `node.word` in place
to `-or` / `-and`; the second component is the (possibly rewritten)
word. -/
def is_binary_logic_op (st : St) (w : String) (parent : Nat) : Bool × String :=
  if w = "-o" then
    match getNode st parent with
    | some d =>
      if d.kind == "headcommand" && d.value == "find" then (true, "-or") else (false, w)
    | none => (false, w)
  else if w = "-a" then
    match getNode st parent with
    | some d =>
      if d.kind == "headcommand" && d.value == "find" then (true, "-and") else (false, w)
    | none => (false, w)
  else (binary_logic_operators.contains w, w)

/-- Function `find_flag_attach_point` (source lines 346-352): a flag's parent, a
head command itself, anything else a `ValueError`.  (A flag with no
parent makes the source return `None`, which crashes at the next
attribute access; we surface that `AttributeError` here.) -/
def find_flag_attach_point (st : St) (ap : Nat) : Except PyExc Nat :=
  match getNode st ap with
  | none => .error .attributeError
  | some d =>
    if d.kind == "flag" then
      match d.parent with
      | some p => .ok p
      | none => .error .attributeError
    else if d.kind == "headcommand" then .ok ap
    else .error (.valueError "Error: cannot decide where to attach flag node")

/-- The loop state of `normalize_command` (source lines 367-374):
the heap, the `attach_point` cursor, `END_OF_OPTIONS`, `END_OF_COMMAND`,
and the two lists of recorded logic-operator nodes. -/
structure CmdState where
  st : St
  ap : Nat
  eoo : Bool
  eoc : Bool
  uops : List Nat
  bops : List Nat

mutual

/-- Function `normalize(node, current, arg_type)` (source lines 471-579): the
recursive dispatch on the raw node kind.  Branch order follows the
source; in particular the generic `hasattr(node, 'parts')` pass-through
comes before the unsupported-kind branches. -/
def normalize (ctx : Ctx) (node : RawNode) (st : St) (current : Nat)
    (argType : String) : Except PyExc St :=
  match node with
  | .mk k w pos hp ps =>
    if k = "word" then
      -- `if node.parts:` — AttributeError when the attribute is absent,
      -- the compound branch when non-empty, the literal leaf otherwise.
      if hp = false then .error .attributeError
      else
        match ps with
        | [] =>
          (attachNew st argType (normalize_word ctx (.mk k w pos hp ps)) current).map (fun r => r.1)
        | p0 :: tl =>
          if p0.kind = "processsubstitution" then
            if w.contains '>' then do
              let r ← attachNew st "processsubstitution" ">" current
              normalizeParts ctx (p0 :: tl) r.1 r.2
            else if w.contains '<' then do
              let r ← attachNew st "processsubstitution" "<" current
              normalizeParts ctx (p0 :: tl) r.1 r.2
            else .ok st
          else if p0.kind = "commandsubstitution" then do
            let r ← attachNew st "commandsubstitution" "" current
            normalizeParts ctx (p0 :: tl) r.1 r.2
          else if p0.kind = "parameter" || p0.kind = "tilde" then
            (attachNew st argType (normalize_word ctx (.mk k w pos hp (p0 :: tl))) current).map (fun r => r.1)
          else normalizeParts ctx (p0 :: tl) st current
    else if k = "pipeline" then do
      let r ← attachNew st "pipeline" "" current
      if hp = false then .error .attributeError
      else if ps.length % 2 = 0 then .error .systemExit
      else pipelineLoop ctx ps r.1 r.2
    else if k = "list" then
      if hp = false then .error .attributeError
      else if ps.length > 2 then .error (.typeError "Unsupported: list of length >= 2")
      else
        match ps with
        | [] => .error .indexError
        | p0 :: _ => normalize ctx p0 st current ""
    else if k = "commandsubstitution" || k = "processsubstitution" then
      -- `normalize(node.command, current)`; the nested command is stored
      -- as the head of `parts`.
      match ps with
      | [] => .error .attributeError
      | c :: _ => normalize ctx c st current ""
    else if k = "command" then
      if hp = false then .error .attributeError
      else normalizeCommand ctx ps st current
    else if hp then
      normalizeParts ctx ps st current
    else if k = "operator" then .error (.valueError "Unsupported: operator")
    else if k = "parameter" then .error (.valueError "Unsupported: parameters")
    else if k = "redirect" then .error (.valueError "Unsupported: redirect")
    else if k = "for" then .error (.valueError "Unsupported: for")
    else if k = "if" then .error (.valueError "Unsupported: if")
    else if k = "while" then .error (.valueError "Unsupported: while")
    else if k = "until" then .error (.valueError "Unsupported: until")
    else if k = "assignment" then .error (.valueError "Unsupported: assignment")
    else if k = "function" then .error (.valueError "Unsupported: function")
    else if k = "tilde" then .error (.valueError "Unsupported: tilde")
    else if k = "heredoc" then .error (.valueError "Unsupported: heredoc")
    else .ok st
termination_by (sizeOf node, 0)

/-- Loop `for child in node.parts: normalize(child, current)`. -/
def normalizeParts (ctx : Ctx) : List RawNode → St → Nat → Except PyExc St
  | [], st, _ => .ok st
  | c :: rest, st, cur => do
    let st' ← normalize ctx c st cur ""
    normalizeParts ctx rest st' cur
termination_by l st cur => (sizeOf l, 1)

/-- The child loop of the pipeline branch (source lines 516-523). -/
def pipelineLoop (ctx : Ctx) : List RawNode → St → Nat → Except PyExc St
  | [], st, _ => .ok st
  | c :: rest, st, pn =>
    if c.kind = "command" then do
      let st' ← normalize ctx c st pn ""
      pipelineLoop ctx rest st' pn
    else if c.kind = "pipe" then pipelineLoop ctx rest st pn
    else .error (.valueError "Error: unrecognized type of child of pipeline node")
termination_by l st pn => (sizeOf l, 1)

/-- Function `normalize_command` (source lines 367-467): the forward token walk,
then the two folding passes. -/
def normalizeCommand (ctx : Ctx) (parts : List RawNode) (st : St) (current : Nat) :
    Except PyExc St := do
  let cs ← commandLoop ctx parts ⟨st, current, false, false, [], []⟩
  secondPass cs.st cs.uops cs.bops
termination_by (sizeOf parts, 3)

/-- Function `attach_option(node, attach_point)` (source lines 376-380): re-target
to the flag attach point, normalize the token as a flag, and return the
new rightmost child as the new attach point.  (A `None` right child makes
the source return `None`, which crashes at the next attribute access; we
surface that `AttributeError` here.) -/
def attachOptionFn (ctx : Ctx) (child : RawNode) (st : St) (ap : Nat) :
    Except PyExc (St × Nat) := do
  let apf ← find_flag_attach_point st ap
  let st' ← normalize ctx child st apf "flag"
  match getNode st' apf with
  | none => .error .attributeError
  | some d =>
    match d.children.getLast? with
    | some x => .ok (st', x)
    | none => .error .attributeError
termination_by (sizeOf child, 1)

/-- The per-token forward walk of `normalize_command`
(source lines 383-431). -/
def commandLoop (ctx : Ctx) : List RawNode → CmdState → Except PyExc CmdState
  | [], cs => .ok cs
  | child :: rest, cs => do
    -- the END_OF_COMMAND re-ascension (source lines 384-392)
    let cs ←
      if cs.eoc then
        match getNode cs.st cs.ap with
        | none => .error .attributeError
        | some d =>
          match d.parent with
          | none => .error .attributeError
          | some p =>
            match getNode cs.st p with
            | none => .error .attributeError
            | some pd =>
              if pd.kind = "flag" then
                match pd.parent with
                | some pp => pure (⟨cs.st, pp, cs.eoo, false, cs.uops, cs.bops⟩ : CmdState)
                | none => .error .attributeError
              else if pd.kind = "headcommand" then
                pure (⟨cs.st, p, cs.eoo, false, cs.uops, cs.bops⟩ : CmdState)
              else .error (.valueError "Error: compound command detected.")
      else pure cs
    if child.kind = "word" then
      if child.word = "--" then
        commandLoop ctx rest ⟨cs.st, cs.ap, true, cs.eoc, cs.uops, cs.bops⟩
      else if child.word = ";" then
        commandLoop ctx rest ⟨cs.st, cs.ap, cs.eoo, true, cs.uops, cs.bops⟩
      else if unary_logic_operators.contains child.word then do
        let apf ← find_flag_attach_point cs.st cs.ap
        if is_unary_logic_op cs.st child.word apf then do
          let r ← attachNew cs.st "unarylogicop" child.word apf
          commandLoop ctx rest ⟨r.1, apf, cs.eoo, cs.eoc, cs.uops ++ [r.2], cs.bops⟩
        else do
          let r ← attachOptionFn ctx child cs.st apf
          commandLoop ctx rest ⟨r.1, r.2, cs.eoo, cs.eoc, cs.uops, cs.bops⟩
      else if binary_logic_operators.contains child.word then do
        let apf ← find_flag_attach_point cs.st cs.ap
        let cls := is_binary_logic_op cs.st child.word apf
        if cls.1 then do
          let r ← attachNew cs.st "binarylogicop" cls.2 apf
          commandLoop ctx rest ⟨r.1, apf, cs.eoo, cs.eoc, cs.uops, cs.bops ++ [r.2]⟩
        else do
          let r ← attachOptionFn ctx child cs.st apf
          commandLoop ctx rest ⟨r.1, r.2, cs.eoo, cs.eoc, cs.uops, cs.bops⟩
      else if ctx.isHeadcommand child.word then
        if with_quotation child = false then do
          let st' ← normalize ctx child cs.st cs.ap "headcommand"
          match getNode st' cs.ap with
          | none => .error .attributeError
          | some d =>
            match d.children.getLast? with
            | some x => commandLoop ctx rest ⟨st', x, cs.eoo, cs.eoc, cs.uops, cs.bops⟩
            | none => .error .attributeError
        else
          -- a quoted head-command token: no branch taken, nothing attached
          commandLoop ctx rest cs
      else if ctx.isOption child.word && !cs.eoo then do
        let r ← attachOptionFn ctx child cs.st cs.ap
        commandLoop ctx rest ⟨r.1, r.2, cs.eoo, cs.eoc, cs.uops, cs.bops⟩
      else do
        -- positional argument (source lines 421-425); `Node.is_flag` is
        -- `bash.is_option(self.value)` (source lines 137-138)
        let ap1 ←
          match getNode cs.st cs.ap with
          | none => .error .attributeError
          | some d =>
            if ctx.isOption d.value && d.children.length ≥ 1 then
              match d.parent with
              | some p => pure p
              | none => .error .attributeError
            else pure cs.ap
        let st' ← normalize ctx child cs.st ap1 "argument"
        commandLoop ctx rest ⟨st', ap1, cs.eoo, cs.eoc, cs.uops, cs.bops⟩
    else if child.kind = "assignment" then do
      let st' ← normalize ctx child cs.st cs.ap "assignment"
      commandLoop ctx rest ⟨st', cs.ap, cs.eoo, cs.eoc, cs.uops, cs.bops⟩
    else .error .systemExit
termination_by l cs => (sizeOf l, 2)

end

/-! ## Orchestrator -/

/-- The fresh root created at source line 606: `Node(kind="root")`, whose
value is the empty string. -/
def rootSt : St :=
  ⟨fun j => if j = 0 then some ⟨"root", "", none, none, none, []⟩ else none, 1⟩

/-- The post-parse phase of `normalize_ast` (source lines 604-613): build
a fresh root, normalize the first parse root, catch exactly `ValueError`
(returning `None`); every other exception class escapes. -/
def normalize_ast_post (ctx : Ctx) (tree : List RawNode) : Except PyExc (Option St) :=
  match tree with
  | [] => .error .indexError
  | t :: _ =>
    match normalize ctx t rootSt 0 "" with
    | .error (.valueError _) => .ok none
    | .error e => .error e
    | .ok st => .ok (some st)

/-- Function `normalize_ast` from the parse outcome onward (source lines 581-613):
the five caught parser-error classes all yield `None`; a successful parse
goes to the tree builder. -/
def normalize_ast (ctx : Ctx) (parseOutcome : Except ParserExc (List RawNode)) :
    Except PyExc (Option St) :=
  match parseOutcome with
  | .error _ => .ok none
  | .ok tree => normalize_ast_post ctx tree

/-! ## Concrete instantiation used by witnesses and counterexamples -/

/-- A small concrete catalogue: `find` is the only head command and every
token starting with a dash is an option. -/
def demoCtx : Ctx :=
  ⟨fun w => w == "find", fun w => w.startsWith "-", [], false⟩

/-- An unquoted plain word token (span length equals the word length). -/
def wordTok (w : String) : RawNode :=
  .mk "word" w (0, (w.length : Int)) true []

/-- The token sequence of `find . -name a -or -name b`. -/
def demoFindOr : List RawNode :=
  [wordTok "find", wordTok ".", wordTok "-name", wordTok "a",
   wordTok "-or", wordTok "-name", wordTok "b"]

/-- The token sequence of `find . -name a -or -name b -not` (a dangling
unary operator after a binary operator). -/
def demoFindOrNot : List RawNode :=
  demoFindOr ++ [wordTok "-not"]

/-- A two-node heap: a root and a `find` head command under it. -/
def demoFindSt : St :=
  ⟨fun j =>
    if j = 0 then some ⟨"root", "", none, none, none, [1]⟩
    else if j = 1 then some ⟨"headcommand", "find", some 0, none, none, []⟩
    else none, 2⟩

/-- The heap reached by the forward walk of `normalize_command` on
`find . -name a -or -name b`, just before the folding passes: the
`find` node 1 owns, in sibling order, the argument `.` (2), the flag
`-name a` (3, with argument child 4), the recorded `-or` operator (5),
and the flag `-name b` (6, with argument child 7). -/
def demoPreFoldSt : St :=
  ⟨fun j =>
    if j = 0 then some ⟨"root", "", none, none, none, [1]⟩
    else if j = 1 then some ⟨"headcommand", "find", some 0, none, none, [2, 3, 5, 6]⟩
    else if j = 2 then some ⟨"argument", ".", some 1, none, some 3, []⟩
    else if j = 3 then some ⟨"flag", "-name", some 1, some 2, some 5, [4]⟩
    else if j = 4 then some ⟨"argument", "a", some 3, none, none, []⟩
    else if j = 5 then some ⟨"binarylogicop", "-or", some 1, some 3, some 6, []⟩
    else if j = 6 then some ⟨"flag", "-name", some 1, some 5, none, [7]⟩
    else if j = 7 then some ⟨"argument", "b", some 6, none, none, []⟩
    else none, 8⟩

/-- The well-formedness of a node kind that makes its symbol invertible:
uppercasing introduces no underscore, uppercase-then-lowercase is the
identity on it, and its uppercase form is not the prefix `<NO` of the
end-of-children marker.  Every kind the Tree Builder ever assigns
(`root`, `pipeline`, `headcommand`, `flag`, `argument`, `unarylogicop`,
`binarylogicop`, `commandsubstitution`, `processsubstitution`, and the
empty default) satisfies it. -/
def goodKind (k : String) : Bool :=
  ((k.data.map Char.toUpper).all fun c => c != '_')
  && ((k.data.map Char.toUpper).map Char.toLower == k.data)
  && !((k.data.map Char.toUpper) == ('<' :: 'N' :: 'O' :: []))

mutual
def goodTree : NTree → Bool
  | .mk k _ cs => goodKind k && goodTreeList cs

def goodTreeList : List NTree → Bool
  | [] => true
  | c :: cs => goodTree c && goodTreeList cs
end

/-- The raw kinds the dedicated unsupported-construct branches reject
(source lines 539-579). -/
def unsupportedKinds : List String :=
  ["redirect", "parameter", "operator", "for", "if", "while", "until",
   "function", "tilde", "heredoc", "assignment"]

/-- The message of the kind-tagged unsupported `ValueError`: the
`parameter` branch says `parameters`, every other branch interpolates the
kind (`"Unsupported: %s" % node.kind`). -/
def unsupportedMsg (k : String) : String :=
  if k = "parameter" then "Unsupported: parameters" else "Unsupported: " ++ k

/-- The heap reached by the forward walk on
`find . -name a -or -name b -not`: as `demoPreFoldSt` but with the
recorded `-not` operator (8) as the last child of `find`. -/
def demoPreFoldNotSt : St :=
  ⟨fun j =>
    if j = 0 then some ⟨"root", "", none, none, none, [1]⟩
    else if j = 1 then some ⟨"headcommand", "find", some 0, none, none, [2, 3, 5, 6, 8]⟩
    else if j = 2 then some ⟨"argument", ".", some 1, none, some 3, []⟩
    else if j = 3 then some ⟨"flag", "-name", some 1, some 2, some 5, [4]⟩
    else if j = 4 then some ⟨"argument", "a", some 3, none, none, []⟩
    else if j = 5 then some ⟨"binarylogicop", "-or", some 1, some 3, some 6, []⟩
    else if j = 6 then some ⟨"flag", "-name", some 1, some 5, some 8, [7]⟩
    else if j = 7 then some ⟨"argument", "b", some 6, none, none, []⟩
    else if j = 8 then some ⟨"unarylogicop", "-not", some 1, some 6, none, []⟩
    else none, 9⟩

/-! ## Basic lemmas about the heap -/

theorem getNode_setNode (st : St) (i : Nat) (d : NodeData) (j : Nat) :
    getNode (setNode st i d) j = if j = i then some d else getNode st j := rfl

theorem setNode_next (st : St) (i : Nat) (d : NodeData) :
    (setNode st i d).next = st.next := rfl

theorem except_bind_ok {α β : Type} (a : α) (f : α → Except PyExc β) :
    (Except.ok a >>= f) = f a := rfl

theorem except_bind_error {α β : Type} (e : PyExc) (f : α → Except PyExc β) :
    ((Except.error e : Except PyExc α) >>= f) = Except.error e := rfl

/-! ## Serializer lemmas -/

theorem splitOnceCh_no_underscore (a v : List Char) (h : '_' ∉ a) :
    splitOnceCh (a ++ '_' :: v) = some (a, v) := by
  induction a with
  | nil => simp [splitOnceCh]
  | cons c cs ih =>
    have hc : ¬ c = '_' := fun hc => h (by simp [hc])
    have hcs : '_' ∉ cs := fun hm => h (List.mem_cons_of_mem _ hm)
    simp only [List.cons_append, splitOnceCh, if_neg hc, List.append_eq]
    rw [ih hcs]
    rfl

theorem symbolStr_data (k v : String) :
    (symbolStr k v).data = k.data.map Char.toUpper ++ '_' :: v.data := rfl

theorem goodKind_no_underscore (k : String) (h : goodKind k = true) :
    '_' ∉ k.data.map Char.toUpper := by
  simp [goodKind] at h
  intro hm
  obtain ⟨x, hx, hx2⟩ := List.mem_map.mp hm
  exact h.1.1 x hx hx2

theorem goodKind_lower (k : String) (h : goodKind k = true) :
    (k.data.map Char.toUpper).map Char.toLower = k.data := by
  simp [goodKind] at h
  rw [List.map_map]
  exact h.1.2

theorem goodKind_not_NO (k : String) (h : goodKind k = true) :
    k.data.map Char.toUpper ≠ ('<' :: 'N' :: 'O' :: []) := by
  simp [goodKind] at h
  exact h.2

theorem goodKind_split (k v : String) (h : goodKind k = true) :
    splitOnce (symbolStr k v) = some (⟨k.data.map Char.toUpper⟩, v) := by
  show (splitOnceCh ((symbolStr k v).data)).map _ = _
  rw [symbolStr_data, splitOnceCh_no_underscore _ _ (goodKind_no_underscore k h)]
  rfl

theorem symbolStr_ne_noExpand (k v : String) (h : goodKind k = true) :
    symbolStr k v ≠ noExpand := by
  intro he
  have h2 : splitOnceCh ((symbolStr k v).data)
      = some (k.data.map Char.toUpper, v.data) := by
    rw [symbolStr_data]
    exact splitOnceCh_no_underscore _ _ (goodKind_no_underscore k h)
  rw [he] at h2
  have h3 : splitOnceCh (noExpand.data)
      = some (('<' :: 'N' :: 'O' :: []), "EXPAND>".data) := by rfl
  rw [h3] at h2
  exact goodKind_not_NO k h (by injection h2 with h4; exact (Prod.mk.injEq _ _ _ _ ▸ h4 : _ ∧ _).1.symm ▸ rfl)

theorem listToTreeAux_symbol (s : String) (rest : List String) (top : Frame)
    (stk : List Frame) (k v : String) (h : ¬ s = noExpand)
    (hs : splitOnce s = some (k, v)) :
    listToTreeAux (s :: rest) top stk
      = listToTreeAux rest ⟨⟨k.data.map Char.toLower⟩, v, []⟩ (top :: stk) := by
  rw [Normalizer.listToTreeAux.eq_def]
  simp only [if_neg h, hs]

theorem listToTreeAux_marker_pop (rest : List String) (top g : Frame)
    (stk : List Frame) :
    listToTreeAux (noExpand :: rest) top (g :: stk)
      = listToTreeAux rest ⟨g.kind, g.value, g.children ++ [closeFrame top]⟩ stk := by
  rw [Normalizer.listToTreeAux.eq_def]
  simp

theorem listToTreeAux_marker_root (rest : List String) (top : Frame) :
    listToTreeAux (noExpand :: rest) top [] = .ok (closeFrame top) := by
  rw [Normalizer.listToTreeAux.eq_def]
  simp

mutual

theorem listToTreeAux_toList (t : NTree) (rest : List String) (top : Frame)
    (stk : List Frame) (h : goodTree t = true) :
    listToTreeAux (toList t ++ rest) top stk
      = listToTreeAux rest ⟨top.kind, top.value, top.children ++ [t]⟩ stk := by
  match t with
  | .mk k v cs =>
    have hk : goodKind k = true := by
      have := h
      rw [goodTree] at this
      exact (Bool.and_eq_true .. ▸ this).1
    have hcs : goodTreeList cs = true := by
      have := h
      rw [goodTree] at this
      exact (Bool.and_eq_true .. ▸ this).2
    rw [toList, List.cons_append,
      listToTreeAux_symbol _ _ top stk _ v (symbolStr_ne_noExpand k v hk)
        (goodKind_split k v hk)]
    rw [goodKind_lower k hk]
    have he : (⟨k.data⟩ : String) = k := rfl
    rw [he, List.append_assoc,
      listToTreeAux_toListF cs ([noExpand] ++ rest) ⟨k, v, []⟩ (top :: stk) hcs]
    rw [show ([noExpand] ++ rest) = noExpand :: rest from rfl,
      listToTreeAux_marker_pop]
    rfl

theorem listToTreeAux_toListF (ts : List NTree) (rest : List String) (top : Frame)
    (stk : List Frame) (h : goodTreeList ts = true) :
    listToTreeAux (toListF ts ++ rest) top stk
      = listToTreeAux rest ⟨top.kind, top.value, top.children ++ ts⟩ stk := by
  match ts with
  | [] =>
    rw [toListF, List.nil_append, List.append_nil]
  | c :: cs =>
    have hc : goodTree c = true := by
      have := h
      rw [goodTreeList] at this
      exact (Bool.and_eq_true .. ▸ this).1
    have hcs : goodTreeList cs = true := by
      have := h
      rw [goodTreeList] at this
      exact (Bool.and_eq_true .. ▸ this).2
    rw [toListF, List.append_assoc, listToTreeAux_toList c _ top stk hc,
      listToTreeAux_toListF cs rest ⟨top.kind, top.value, top.children ++ [c]⟩ stk hcs]
    simp [List.append_assoc]

end

/-- C3 (amended): de-linearizing the linearization of a tree whose
sub-nodes all carry well-formed kinds reproduces the tree exactly at
every position below the root, and reproduces the root's children and
child order; the reconstructed root, however, always carries kind
`"root"` and value `"root"` regardless of the original root's value. -/
theorem claim_C3_roundtrip (t : NTree) (h : goodTreeList t.children = true) :
    list_to_tree (toList t) = .ok (.mk "root" "root" t.children) := by
  match t with
  | .mk k v cs =>
    show listToTreeAux (toListF cs ++ [noExpand]) ⟨"root", "root", []⟩ [] = _
    rw [listToTreeAux_toListF cs [noExpand] ⟨"root", "root", []⟩ []
      (by exact h)]
    rw [listToTreeAux, if_pos rfl]
    rfl

/-- C3 witness: the round trip on a concrete normalized tree for
`find -name` with a root whose value is already `"root"`. -/
theorem claim_C3_witness :
    list_to_tree (toList (.mk "root" "root"
        [.mk "headcommand" "find" [.mk "flag" "-name" []]]))
      = .ok (.mk "root" "root" [.mk "headcommand" "find" [.mk "flag" "-name" []]]) :=
  claim_C3_roundtrip
    (.mk "root" "root" [.mk "headcommand" "find" [.mk "flag" "-name" []]]) (by rfl)

/-- C3 counterexample: `normalize_ast` creates its root as
`Node(kind="root")`, whose value is the empty string, but `list_to_tree`
rebuilds the root with value `"root"`; the round trip is therefore not
exact at the root for every tree the normalizer actually returns. -/
theorem claim_C3_counterexample :
    list_to_tree (toList (.mk "root" "" [.mk "headcommand" "find" []]))
      = .ok (.mk "root" "root" [.mk "headcommand" "find" []])
    ∧ NTree.mk "root" "root" [.mk "headcommand" "find" []]
        ≠ .mk "root" "" [.mk "headcommand" "find" []] := by
  refine ⟨rfl, fun he => ?_⟩
  have : "root" = "" := by injection he
  simp at this

/-- C6: on a malformed symbol sequence — here one that ascends from the
root and then carries further symbols — `list_to_tree` silently returns
the partial tree built so far (the bare root) instead of reporting a
malformed-sequence error; likewise a sequence that ends away from the
root returns a partial tree. -/
theorem claim_C6_silent_partial_tree :
    list_to_tree ["ROOT_root", "<NO_EXPAND>", "FLAG_-print"]
      = .ok (.mk "root" "root" [])
    ∧ list_to_tree ["ROOT_root", "FLAG_-print"]
      = .ok (.mk "root" "root" [.mk "flag" "-print" []]) :=
  ⟨rfl, rfl⟩

/-! ## Claim C9: quote recovery -/

/-- C9: with quote recovery enabled, a leaf token's surface value is
replaced by the exact original substring of the command (its byte-offset
span, quotes included) precisely when the original span is exactly two
characters longer than the bare token; otherwise the bare token is kept.
Under that condition (and in-range spans) the recovered value is two
characters longer than the bare token, so the enclosing quote characters
are preserved verbatim. -/
theorem claim_C9_quote_recovery (cmd : List Char) (node : RawNode) :
    (with_quotation node = true ↔
      node.pos.2 - node.pos.1 = (node.word.length : Int) + 2)
    ∧ (node.pos.2 - node.pos.1 = (node.word.length : Int) + 2 →
        recover_quotation cmd node = ⟨sliceStr cmd node.pos.1 node.pos.2⟩
        ∧ (0 ≤ node.pos.1 → node.pos.2.toNat ≤ cmd.length →
            (recover_quotation cmd node).length = node.word.length + 2))
    ∧ (node.pos.2 - node.pos.1 ≠ (node.word.length : Int) + 2 →
        recover_quotation cmd node = node.word) := by
  obtain ⟨k, w, ⟨p1, p2⟩, hp, ps⟩ := node
  have hq : with_quotation (.mk k w (p1, p2) hp ps) = true ↔
      p2 - p1 = (w.length : Int) + 2 := by
    simp only [with_quotation, RawNode.pos, RawNode.word, beq_iff_eq]
    omega
  refine ⟨hq, fun h => ⟨?_, fun h1 h2 => ?_⟩, fun h => ?_⟩
  · rw [recover_quotation, if_pos (hq.mpr h)]
  · rw [recover_quotation, if_pos (hq.mpr h)]
    show (sliceStr cmd p1 p2).length = w.length + 2
    rw [sliceStr, List.length_take, List.length_drop]
    simp only [RawNode.pos, RawNode.word] at h h1 h2
    omega
  · rw [recover_quotation, if_neg fun hc => h (hq.mp hc)]

/-- C9 witness: in the command `x "ab" y` the token `ab` with span
`[2, 6)` (two characters longer than the token) recovers to `"ab"` with
the quotes, while a token whose span equals its length is kept bare. -/
theorem claim_C9_witness :
    recover_quotation ("x \"ab\" y".data) (.mk "word" "ab" (2, 6) true [])
        = "\"ab\""
    ∧ recover_quotation ("x \"ab\" y".data) (.mk "word" "abc" (2, 5) true [])
        = "abc" := by
  constructor
  · rw [((claim_C9_quote_recovery ("x \"ab\" y".data)
      (.mk "word" "ab" (2, 6) true [])).2.1 (by decide)).1]
    rfl
  · rw [(claim_C9_quote_recovery ("x \"ab\" y".data)
      (.mk "word" "abc" (2, 5) true [])).2.2 (by decide)]
    rfl

/-! ## Claims C4 and C5: the unsupported-construct dispatch -/

/-- C4 (amended): a raw node of one of the listed unsupported kinds fails
immediately with the kind-tagged unsupported `ValueError` only when it
carries no `parts` attribute; because the generic `hasattr(node, 'parts')`
pass-through precedes all the unsupported-kind branches, a node of one of
these kinds that does carry a `parts` collection is instead flattened by
recursing into each part, producing output and raising nothing. -/
theorem claim_C4_unsupported_kinds (ctx : Ctx) (st : St) (cur : Nat)
    (argT k w : String) (pos : Int × Int) (ps : List RawNode)
    (hk : k ∈ unsupportedKinds) :
    normalize ctx (.mk k w pos false ps) st cur argT
      = .error (.valueError (unsupportedMsg k))
    ∧ normalize ctx (.mk k w pos true ps) st cur argT
      = normalizeParts ctx ps st cur := by
  fin_cases hk <;>
    exact ⟨by rw [Normalizer.normalize.eq_def]; simp [unsupportedMsg],
           by rw [Normalizer.normalize.eq_def]; simp⟩

/-- C4 witness: a bare `redirect` raw node (no `parts`) is rejected with
its kind-tagged error, and a `redirect` node with an empty `parts` list
is passed through untouched. -/
theorem claim_C4_witness :
    normalize demoCtx (.mk "redirect" "" (0, 0) false []) rootSt 0 ""
      = .error (.valueError "Unsupported: redirect")
    ∧ normalize demoCtx (.mk "redirect" "" (0, 0) true []) rootSt 0 ""
      = normalizeParts demoCtx [] rootSt 0 :=
  claim_C4_unsupported_kinds demoCtx rootSt 0 "" "redirect" "" (0, 0) []
    (by decide)

/-- C4 counterexample: a raw `for` node carrying parts does not fail at
all — normalization succeeds and recurses into the parts, attaching an
output leaf for the inner word, contradicting the claim that such kinds
fail immediately with an unsupported error and produce no output. -/
theorem claim_C4_counterexample :
    (normalize demoCtx (.mk "for" "" (0, 0) true [wordTok "x"]) rootSt 0 "").map
        (fun st => ((getNode st 0).map NodeData.children, getNode st 1))
      = .ok (some [1], some ⟨"", "x", some 0, none, none, []⟩) := by
  rw [Normalizer.normalize.eq_def]
  simp only [String.reduceEq, reduceIte]
  rw [Normalizer.normalizeParts.eq_def]
  simp only []
  rw [Normalizer.normalize.eq_def]
  simp [wordTok, attachNew, rootSt, getNode, setNode, normalize_word,
    recover_quotation, with_quotation, demoCtx, sliceStr, except_bind_ok,
    Normalizer.normalizeParts.eq_def, RawNode.pos, RawNode.word, RawNode.kind,
    show "x".length = 1 from rfl, Except.map]

/-- C5 (amended): for a raw `list` node, only lengths strictly greater
than 2 raise the unsupported-construct failure — and they raise a plain
string (a `TypeError`), not a `ValueError`; a list of length 1 or 2 is
passed through to its first part (silently dropping the second element of
a length-2 list), and an empty list raises `IndexError`. -/
theorem claim_C5_list_dispatch (ctx : Ctx) (st : St) (cur : Nat)
    (argT w : String) (pos : Int × Int) (ps : List RawNode) :
    (ps.length > 2 →
      normalize ctx (.mk "list" w pos true ps) st cur argT
        = .error (.typeError "Unsupported: list of length >= 2"))
    ∧ (∀ p0 tl, ps = p0 :: tl → ps.length ≤ 2 →
        normalize ctx (.mk "list" w pos true ps) st cur argT
          = normalize ctx p0 st cur "")
    ∧ (ps = [] →
        normalize ctx (.mk "list" w pos true ps) st cur argT
          = .error .indexError) := by
  refine ⟨fun h => ?_, fun p0 tl hps hlen => ?_, fun hps => ?_⟩
  · rw [Normalizer.normalize.eq_def]
    simp [h]
  · subst hps
    rw [Normalizer.normalize.eq_def]
    simp only [List.length_cons] at hlen
    have h2 : ¬ 2 < tl.length + 1 := by omega
    simp [h2]
  · subst hps
    rw [Normalizer.normalize.eq_def]
    simp

/-- C5 witness: a length-3 list raises the (string-typed) unsupported
failure; a length-2 list is silently reduced to its first part. -/
theorem claim_C5_witness :
    normalize demoCtx
        (.mk "list" "" (0, 0) true [wordTok "a", wordTok "b", wordTok "c"])
        rootSt 0 ""
      = .error (.typeError "Unsupported: list of length >= 2")
    ∧ normalize demoCtx (.mk "list" "" (0, 0) true [wordTok "ls", wordTok "pwd"])
        rootSt 0 ""
      = normalize demoCtx (wordTok "ls") rootSt 0 "" := by
  constructor
  · exact (claim_C5_list_dispatch demoCtx rootSt 0 "" "" (0, 0)
      [wordTok "a", wordTok "b", wordTok "c"]).1 (by decide)
  · exact (claim_C5_list_dispatch demoCtx rootSt 0 "" "" (0, 0)
      [wordTok "ls", wordTok "pwd"]).2.1 (wordTok "ls") [wordTok "pwd"] rfl
      (by decide)

/-- C5 counterexample: a raw list of length 2 is not an unsupported
failure — normalization succeeds, processing only the first part (the
node built from `ls`) and silently dropping the second. -/
theorem claim_C5_counterexample :
    (normalize demoCtx (.mk "list" "" (0, 0) true [wordTok "ls", wordTok "pwd"])
        rootSt 0 "").map
        (fun st => ((getNode st 0).map NodeData.children, getNode st 1, getNode st 2))
      = .ok (some [1], some ⟨"", "ls", some 0, none, none, []⟩, none) := by
  rw [Normalizer.normalize.eq_def]
  simp only [List.length_cons, List.length_nil, Nat.reduceAdd, Nat.reduceLT,
    String.reduceEq, reduceIte]
  rw [Normalizer.normalize.eq_def]
  simp only [wordTok, RawNode.kind, RawNode.word, RawNode.pos, String.reduceEq, reduceIte]
  simp [attachNew, rootSt, getNode, setNode, normalize_word, recover_quotation,
    with_quotation, demoCtx, sliceStr, Except.map, RawNode.pos, RawNode.word,
    show "ls".length = 2 from rfl]

/-! ## Claim C1: the orchestration boundary -/

/-- C1 (amended): the orchestrator converts each of the five caught
parser-error classes to "no normalized tree", and it never lets a
`ValueError`-class Tree Builder failure escape (those become `None`); but
only `ValueError` is caught around the tree builder, so failures raised
through other exception classes escape to the caller. -/
theorem claim_C1_orchestration (ctx : Ctx)
    (o : Except ParserExc (List RawNode)) :
    (∀ e, o = .error e → normalize_ast ctx o = .ok none)
    ∧ (∀ m, normalize_ast ctx o ≠ .error (.valueError m)) := by
  constructor
  · intro e he
    subst he
    rfl
  · intro m
    match o with
    | .error e => simp [normalize_ast]
    | .ok tree =>
      show normalize_ast_post ctx tree ≠ _
      match tree with
      | [] => simp [normalize_ast_post]
      | t :: rest =>
        cases hn : normalize ctx t rootSt 0 "" with
        | ok st => simp [normalize_ast_post, hn]
        | error e => cases e <;> simp [normalize_ast_post, hn]

/-- C1 witness: a caught parser failure yields the uniform
"no normalized tree" result. -/
theorem claim_C1_witness :
    normalize_ast demoCtx (.error .parsingError) = .ok none :=
  (claim_C1_orchestration demoCtx (.error .parsingError)).1 .parsingError rfl

/-- C1 counterexample: on a raw pipeline with an even number of parts the
tree builder executes `sys.exit()`, and that `SystemExit` escapes
`normalize_ast` — it is not converted to the uniform `None`-plus-reason
result. -/
theorem claim_C1_counterexample :
    normalize_ast demoCtx
        (.ok [.mk "pipeline" "" (0, 0) true [wordTok "a", wordTok "b"]])
      = .error .systemExit := by
  have h : ∀ pos : Int × Int,
      normalize demoCtx (.mk "pipeline" "" pos true [wordTok "a", wordTok "b"])
        rootSt 0 "" = .error .systemExit := by
    intro pos
    rw [Normalizer.normalize.eq_def]
    simp [attachNew, rootSt, getNode, setNode, except_bind_ok]
  simp [normalize_ast, normalize_ast_post, h]

/-! ## Claim C10: quoted head-command tokens -/

/-- C10: a word token that is a recognized head command but whose
original span shows enclosing quotation (span exactly two characters
longer than the bare word) is silently dropped by the forward walk of
the command state machine: no node of any kind is created for it, it is
not recorded or attached as an argument, and the loop state — heap,
attach point, and flags — is left exactly unchanged. -/
theorem claim_C10_quoted_headcommand (ctx : Ctx) (rest : List RawNode)
    (cs : CmdState) (w : String) (pos : Int × Int) (hp : Bool)
    (ps : List RawNode)
    (heoc : cs.eoc = false)
    (h1 : w ≠ "--") (h2 : w ≠ ";")
    (h3 : unary_logic_operators.contains w = false)
    (h4 : binary_logic_operators.contains w = false)
    (h5 : ctx.isHeadcommand w = true)
    (h6 : with_quotation (.mk "word" w pos hp ps) = true) :
    commandLoop ctx (.mk "word" w pos hp ps :: rest) cs
      = commandLoop ctx rest cs := by
  have h3b : w ∉ unary_logic_operators := by
    intro hm
    simp [List.contains_iff_exists_mem_beq] at h3
    exact h3 hm
  have h4b : w ∉ binary_logic_operators := by
    intro hm
    simp [List.contains_iff_exists_mem_beq] at h4
    exact h4 hm
  rw [Normalizer.commandLoop.eq_def]
  simp [RawNode.kind, RawNode.word, heoc, h1, h2, h3b, h4b, h5, h6]

/-- C10 witness: a quoted `find` token (span `[0, 6)` around the 4-letter
word) is dropped, leaving the state untouched. -/
theorem claim_C10_witness :
    commandLoop demoCtx [.mk "word" "find" (0, 6) true []]
        ⟨demoFindSt, 1, false, false, [], []⟩
      = commandLoop demoCtx [] ⟨demoFindSt, 1, false, false, [], []⟩ :=
  claim_C10_quoted_headcommand demoCtx [] ⟨demoFindSt, 1, false, false, [], []⟩
    "find" (0, 6) true [] rfl (by decide) (by decide) (by decide) (by decide)
    rfl (by decide)


/-! ## Claim C8: the dangling unary operator -/

/-- C8 (amended): when the unary folding loop reaches a recorded operator
whose right sibling is missing, the condition is recoverable in the sense
that the command tree built so far is still returned (not discarded) and
the operator is left un-folded with the state unchanged — but, contrary
to the claim, folding stops entirely: the warning early-`return` skips
every not-yet-processed recorded operator, unary and binary alike, so the
rest of the recorded operators are left un-folded as well. -/
theorem claim_C8_dangling_unary (st : St) (n : Nat) (rest bops : List Nat)
    (nd : NodeData) (hn : getNode st n = some nd) (hr : nd.rsb = none) :
    foldUnaryOps st (n :: rest) = .ok (st, true)
    ∧ secondPass st (n :: rest) bops = .ok st := by
  have h1 : foldUnaryStep st n = .ok (st, true) := by
    unfold foldUnaryStep
    simp only [hn, hr]
  have h2 : foldUnaryOps st (n :: rest) = .ok (st, true) := by
    rw [Normalizer.foldUnaryOps.eq_def]
    simp only [h1]
    rfl
  exact ⟨h2, by rw [secondPass]; simp only [h2]; rfl⟩

/-- C8 witness: on the pre-fold state of
`find . -name a -or -name b -not` the dangling `-not` (node 8) triggers
the warning path and the second pass returns the state unchanged. -/
theorem claim_C8_witness :
    foldUnaryOps demoPreFoldNotSt [8] = .ok (demoPreFoldNotSt, true)
    ∧ secondPass demoPreFoldNotSt [8] [5] = .ok demoPreFoldNotSt :=
  claim_C8_dangling_unary demoPreFoldNotSt 8 [] [5]
    ⟨"unarylogicop", "-not", some 1, some 6, none, []⟩ rfl rfl

/-- C8 counterexample: in `find . -name a -or -name b -not` the recorded
`-or` operator (node 5) has both siblings available, yet after the second
pass it still has zero children — it was never folded, because the
dangling `-not` aborted the whole folding phase; the claim would require
its two operands to have been absorbed. -/
theorem claim_C8_counterexample :
    (secondPass demoPreFoldNotSt [8] [5]).map
        (fun st => (getNode st 5).map (fun d => d.children.length))
      = .ok (some 0)
    ∧ (0 : Nat) ≠ 2 := ⟨rfl, by decide⟩

/-- C7 counterexample: after the state machine processes a true `-not`
operator under the `find` head command (node 1), the recorded operator is
the fresh node 2, but the attach point is node 1 — the operator's parent —
not the operator node itself, contradicting the claim that the operator
becomes the new attach point. -/
theorem claim_C7_counterexample :
    (commandLoop demoCtx [.mk "word" "-not" (0, 4) true []]
        ⟨demoFindSt, 1, false, false, [], []⟩).map (fun c => (c.ap, c.uops))
      = .ok (1, [2])
    ∧ (1 : Nat) ≠ 2 := by
  constructor
  · simp only [Normalizer.commandLoop.eq_def]
    rfl
  · decide

/-! ## Claim C7: unary-operator classification and attachment -/

/-- What node construction plus `attach_to_tree` does to the heap: the
fresh node is appended as the parent's last child with its left-sibling
pointer at the previous rightmost child, whose right-sibling pointer is
re-pointed at the fresh node; every other node is untouched. -/
theorem attachNew_spec (st : St) (k v : String) (p : Nat) (pd : NodeData)
    (hpd : getNode st p = some pd)
    (hfresh : getNode st st.next = none)
    (hch : ∀ x ∈ pd.children, x ≠ st.next ∧ x ≠ p) :
    ∃ st2, attachNew st k v p = .ok (st2, st.next)
      ∧ getNode st2 st.next = some ⟨k, v, some p, pd.children.getLast?, none, []⟩
      ∧ getNode st2 p
          = some ⟨pd.kind, pd.value, pd.parent, pd.lsb, pd.rsb,
              pd.children ++ [st.next]⟩
      ∧ st2.next = st.next + 1
      ∧ (∀ x xd, pd.children.getLast? = some x → getNode st x = some xd →
          getNode st2 x
            = some ⟨xd.kind, xd.value, xd.parent, xd.lsb, some st.next, xd.children⟩)
      ∧ (∀ y, y ≠ st.next → y ≠ p →
          (∀ x, pd.children.getLast? = some x → y ≠ x) →
          getNode st2 y = getNode st y) := by
  have hpn : p ≠ st.next := fun h => by rw [h, hfresh] at hpd; exact Option.noConfusion hpd
  unfold attachNew
  simp only [hpd]
  cases hlast : pd.children.getLast? with
  | none =>
    refine ⟨_, rfl, ?_, ?_, rfl, ?_, ?_⟩
    · simp [getNode, setNode, Ne.symm hpn]
    · simp [getNode, setNode]
    · intro x xd hx
      exact absurd hx (by simp [hlast])
    · intro y hy1 hy2 _
      simp [getNode, setNode, hy1, hy2]
  | some li =>
    have hmem : li ∈ pd.children := by
      obtain ⟨hne, heq⟩ := List.mem_getLast?_eq_getLast
        (show li ∈ pd.children.getLast? from by simp [hlast])
      exact heq ▸ List.getLast_mem hne
    have hli : li ≠ st.next ∧ li ≠ p := hch li hmem
    cases hgl : getNode st li with
    | none =>
      have hgl2 : getNode (setNode (setNode st st.next ⟨k, v, some p, some li, none, []⟩) p
          ⟨pd.kind, pd.value, pd.parent, pd.lsb, pd.rsb, pd.children ++ [st.next]⟩) li
          = none := by
        simp only [getNode] at hgl
        simp [getNode, setNode, hli.1, hli.2, hgl]
      simp only [hgl2]
      refine ⟨_, rfl, ?_, ?_, rfl, ?_, ?_⟩
      · simp [getNode, setNode, Ne.symm hpn]
      · simp [getNode, setNode]
      · intro x xd hx hxd
        injection hx with hlx
        rw [← hlx] at hxd
        rw [hgl] at hxd
        exact Option.noConfusion hxd
      · intro y hy1 hy2 _
        simp [getNode, setNode, hy1, hy2]
    | some ld =>
      have hgl2 : getNode (setNode (setNode st st.next ⟨k, v, some p, some li, none, []⟩) p
          ⟨pd.kind, pd.value, pd.parent, pd.lsb, pd.rsb, pd.children ++ [st.next]⟩) li
          = some ld := by
        simp only [getNode] at hgl
        simp [getNode, setNode, hli.1, hli.2, hgl]
      simp only [hgl2]
      refine ⟨_, rfl, ?_, ?_, rfl, ?_, ?_⟩
      · simp [getNode, setNode, Ne.symm hpn, Ne.symm hli.1]
      · simp [getNode, setNode, Ne.symm hli.2, Ne.symm hpn]
      · intro x xd hx hxd
        injection hx with hlx
        subst hlx
        rw [hgl] at hxd
        injection hxd with hxd
        subst hxd
        simp [getNode, setNode]
      · intro y hy1 hy2 hy3
        have hy3b : y ≠ li := hy3 li rfl
        simp [getNode, setNode, hy1, hy2, hy3b]


/-- A simple word token (no compound parts) normalizes to one attached
leaf carrying its normalized value. -/
theorem normalize_word_leaf (ctx : Ctx) (st : St) (cur : Nat) (argT w : String)
    (pos : Int × Int) :
    normalize ctx (.mk "word" w pos true []) st cur argT
      = (attachNew st argT (normalize_word ctx (.mk "word" w pos true [])) cur).map
          (fun r => r.1) := by
  rw [Normalizer.normalize.eq_def]
  simp

/-- C7 (amended): during the forward walk, a token in the unary-operator
set is classified as a true operator exactly when it is `-not`, or it is
`!` and the flag-attach point is a `find` head command; a true operator
is recorded un-nested (appended as a child of the flag-attach point) —
but the attach point for subsequent tokens stays at the flag-attach
point, the operator's parent, not at the operator node itself; a
non-operator token in the set is attached as an ordinary flag, which does
become the new attach point. -/
theorem claim_C7_unary_operator (ctx : Ctx) (rest : List RawNode)
    (cs : CmdState) (w : String) (pos : Int × Int) (hp : Bool) (ps : List RawNode)
    (apf : Nat) (apd : NodeData)
    (hw : w = "!" ∨ w = "-not")
    (heoc : cs.eoc = false)
    (hap : find_flag_attach_point cs.st cs.ap = .ok apf)
    (hapd : getNode cs.st apf = some apd)
    (hfresh : getNode cs.st cs.st.next = none)
    (hch : ∀ x ∈ apd.children, x ≠ cs.st.next ∧ x ≠ apf) :
    (is_unary_logic_op cs.st w apf = true ↔
      (w = "-not" ∨ (w = "!" ∧ apd.kind = "headcommand" ∧ apd.value = "find")))
    ∧ (is_unary_logic_op cs.st w apf = true →
        ∃ st2,
          commandLoop ctx (.mk "word" w pos hp ps :: rest) cs
            = commandLoop ctx rest
                ⟨st2, apf, cs.eoo, cs.eoc, cs.uops ++ [cs.st.next], cs.bops⟩
          ∧ getNode st2 cs.st.next
              = some ⟨"unarylogicop", w, some apf, apd.children.getLast?, none, []⟩
          ∧ getNode st2 apf
              = some ⟨apd.kind, apd.value, apd.parent, apd.lsb, apd.rsb,
                  apd.children ++ [cs.st.next]⟩
          ∧ apf ≠ cs.st.next)
    ∧ (is_unary_logic_op cs.st w apf = false → apd.kind = "headcommand" →
        hp = true → ps = [] →
        ∃ st2,
          commandLoop ctx (.mk "word" w pos hp ps :: rest) cs
            = commandLoop ctx rest
                ⟨st2, cs.st.next, cs.eoo, cs.eoc, cs.uops, cs.bops⟩
          ∧ getNode st2 cs.st.next
              = some ⟨"flag", normalize_word ctx (.mk "word" w pos hp ps), some apf,
                  apd.children.getLast?, none, []⟩) := by
  have hapn : apf ≠ cs.st.next := fun h => by
    rw [h, hfresh] at hapd
    exact Option.noConfusion hapd
  refine ⟨?_, fun hop => ?_, fun hop hkind hhp hps => ?_⟩
  · rcases hw with hw | hw <;> subst hw
    · simp [is_unary_logic_op, hapd]
    · simp [is_unary_logic_op, unary_logic_operators]
  · obtain ⟨st2, hA, h1, h2, _, _, _⟩ :=
      attachNew_spec cs.st "unarylogicop" w apf apd hapd hfresh hch
    refine ⟨st2, ?_, h1, h2, hapn⟩
    rw [Normalizer.commandLoop.eq_def]
    have hmem : w ∈ unary_logic_operators := by
      rcases hw with hw | hw <;> subst hw <;> decide
    have hne1 : w ≠ "--" := by rcases hw with hw | hw <;> subst hw <;> decide
    have hne2 : w ≠ ";" := by rcases hw with hw | hw <;> subst hw <;> decide
    simp [RawNode.kind, RawNode.word, heoc, hne1, hne2, hmem, hap, hop, hA, except_bind_ok]
  · subst hhp
    subst hps
    obtain ⟨st2, hA, h1, h2, _, _, _⟩ :=
      attachNew_spec cs.st "flag" (normalize_word ctx (.mk "word" w pos true []))
        apf apd hapd hfresh hch
    refine ⟨st2, ?_, h1⟩
    have hffa2 : find_flag_attach_point cs.st apf = .ok apf := by
      unfold find_flag_attach_point
      rw [hapd]
      simp [hkind]
    have hAopt : attachOptionFn ctx (.mk "word" w pos true []) cs.st apf
        = .ok (st2, cs.st.next) := by
      unfold attachOptionFn
      rw [hffa2]
      simp only [except_bind_ok]
      rw [normalize_word_leaf, hA]
      simp only [Except.map, except_bind_ok]
      rw [h2]
      simp [List.getLast?_concat]
    rw [Normalizer.commandLoop.eq_def]
    have hmem : w ∈ unary_logic_operators := by
      rcases hw with hw | hw <;> subst hw <;> decide
    have hne1 : w ≠ "--" := by rcases hw with hw | hw <;> subst hw <;> decide
    have hne2 : w ≠ ";" := by rcases hw with hw | hw <;> subst hw <;> decide
    simp [RawNode.kind, RawNode.word, heoc, hne1, hne2, hmem, hap, hop, hAopt, except_bind_ok]


/-- C7 witness: `-not` under the `find` head command is classified as a
true operator, recorded as node 2 under `find` (node 1), and the attach
point stays at node 1. -/
theorem claim_C7_witness :
    is_unary_logic_op demoFindSt "-not" 1 = true
    ∧ (∃ st2,
        commandLoop demoCtx [.mk "word" "-not" (0, 4) true []]
            ⟨demoFindSt, 1, false, false, [], []⟩
          = commandLoop demoCtx []
              ⟨st2, 1, false, false, [] ++ [2], []⟩
        ∧ getNode st2 2
            = some ⟨"unarylogicop", "-not", some 1, List.getLast? [], none, []⟩
        ∧ getNode st2 1
            = some ⟨"headcommand", "find", some 0, none, none, [] ++ [2]⟩
        ∧ (1 : Nat) ≠ 2) := by
  have h := claim_C7_unary_operator demoCtx []
      ⟨demoFindSt, 1, false, false, [], []⟩ "-not" (0, 4) true [] 1
      ⟨"headcommand", "find", some 0, none, none, []⟩
      (Or.inr rfl) rfl rfl rfl rfl
      (by intro x hx; exact absurd hx (List.not_mem_nil x))
  exact ⟨rfl, h.2.1 rfl⟩


/-! ## Claim C2: binary logic-operator folding -/

/-- Lookup of the written node after an `rsb` field assignment. -/
theorem getNode_setRsb_self (st : St) (i : Nat) (r : Option Nat) (d : NodeData)
    (hi : getNode st i = some d) :
    getNode (setRsb st i r) i
      = some ⟨d.kind, d.value, d.parent, d.lsb, r, d.children⟩ := by
  unfold setRsb
  rw [hi]
  simp [getNode, setNode]

/-- An `rsb` field assignment leaves every other node unchanged. -/
theorem getNode_setRsb_other (st : St) (i : Nat) (r : Option Nat) (y : Nat)
    (hy : y ≠ i) :
    getNode (setRsb st i r) y = getNode st y := by
  unfold setRsb
  cases h : getNode st i with
  | none => rfl
  | some d => simp [getNode, setNode, hy]

/-- Lookup of the written node after an `lsb` field assignment. -/
theorem getNode_setLsb_self (st : St) (i : Nat) (l : Option Nat) (d : NodeData)
    (hi : getNode st i = some d) :
    getNode (setLsb st i l) i
      = some ⟨d.kind, d.value, d.parent, l, d.rsb, d.children⟩ := by
  unfold setLsb
  rw [hi]
  simp [getNode, setNode]

/-- An `lsb` field assignment leaves every other node unchanged. -/
theorem getNode_setLsb_other (st : St) (i : Nat) (l : Option Nat) (y : Nat)
    (hy : y ≠ i) :
    getNode (setLsb st i l) y = getNode st y := by
  unfold setLsb
  cases h : getNode st i with
  | none => rfl
  | some d => simp [getNode, setNode, hy]

/-- Lookup of the left argument after `make_sibling`: only its `rsb`
pointer changes. -/
theorem make_sibling_left (st : St) (a : Nat) (ro : Option Nat) (ad : NodeData)
    (ha : getNode st a = some ad) (hro : ∀ x, ro = some x → x ≠ a) :
    getNode (make_sibling st (some a) ro) a
      = some ⟨ad.kind, ad.value, ad.parent, ad.lsb, ro, ad.children⟩ := by
  unfold make_sibling
  cases ro with
  | none => exact getNode_setRsb_self st a none ad ha
  | some ri =>
    rw [getNode_setLsb_other _ ri (some a) a (fun h => hro ri rfl h.symm)]
    exact getNode_setRsb_self st a (some ri) ad ha

/-- Lookup of the right argument after `make_sibling`: only its `lsb`
pointer changes. -/
theorem make_sibling_right (st : St) (lo : Option Nat) (b : Nat) (bd : NodeData)
    (hb : getNode st b = some bd) (hlo : ∀ x, lo = some x → x ≠ b) :
    getNode (make_sibling st lo (some b)) b
      = some ⟨bd.kind, bd.value, bd.parent, lo, bd.rsb, bd.children⟩ := by
  unfold make_sibling
  cases lo with
  | none => exact getNode_setLsb_self st b none bd hb
  | some li =>
    have hb1 : getNode (setRsb st li (some b)) b = some bd := by
      rw [getNode_setRsb_other st li (some b) b (fun h => hlo li rfl h.symm)]
      exact hb
    exact getNode_setLsb_self _ b (some li) bd hb1

/-- Function `make_sibling` touches no node other than its two arguments. -/
theorem make_sibling_other (st : St) (lo ro : Option Nat) (y : Nat)
    (hl : ∀ x, lo = some x → y ≠ x) (hr : ∀ x, ro = some x → y ≠ x) :
    getNode (make_sibling st lo ro) y = getNode st y := by
  unfold make_sibling
  cases lo with
  | none =>
    cases ro with
    | none => rfl
    | some ri => exact getNode_setLsb_other st ri none y (hr ri rfl)
  | some li =>
    cases ro with
    | none => exact getNode_setRsb_other st li none y (hl li rfl)
    | some ri =>
      rw [getNode_setLsb_other _ ri (some li) y (hr ri rfl)]
      exact getNode_setRsb_other st li (some ri) y (hl li rfl)


/-- Helper converting an id inequality through an `Option` equation. -/
theorem ne_of_some (a y : Nat) (h : y ≠ a) : ∀ x, some a = some x → y ≠ x :=
  fun x hx => by injection hx with hx; exact hx ▸ h

/-- Helper converting an id inequality through an `Option` equation. -/
theorem ne_of_some2 (a y : Nat) (h : a ≠ y) : ∀ x, some a = some x → x ≠ y :=
  fun x hx => by injection hx with hx; exact hx ▸ h

/-- C2: a recorded binary logic-operator node that still has both an
immediate left sibling `l` and an immediate right sibling `r` at folding
time absorbs both as its exactly two children in order (left first, then
right), is removed from neither its place nor its parent: the parent's
child list `A ++ l :: n :: r :: B` becomes `A ++ n :: B`, so no stray
operand siblings remain at that level, and the sibling chain is re-linked
through the operator — its `lsb`/`rsb` pointers take over the outer
neighbours, whose pointers are re-pointed at the operator. -/
theorem claim_C2_binary_fold (st : St) (n l r p : Nat) (A B : List Nat)
    (nd ld rd pd : NodeData)
    (h1 : getNode st n = some nd)
    (h2 : nd.lsb = some l) (h3 : nd.rsb = some r) (h4 : nd.parent = some p)
    (h5 : nd.children = [])
    (h6 : getNode st l = some ld) (h7 : getNode st r = some rd)
    (h8 : getNode st p = some pd)
    (h9 : pd.children = A ++ l :: n :: r :: B)
    (hnl : n ≠ l) (hnr : n ≠ r) (hnp : n ≠ p)
    (hlr : l ≠ r) (hlp : l ≠ p) (hrp : r ≠ p)
    (hlA : l ∉ A) (hrA : r ∉ A)
    (hll : ∀ x, ld.lsb = some x → x ≠ n ∧ x ≠ l ∧ x ≠ r ∧ x ≠ p)
    (hrr : ∀ x, rd.rsb = some x → x ≠ n ∧ x ≠ l ∧ x ≠ r ∧ x ≠ p)
    (hllrr : ∀ x y, ld.lsb = some x → rd.rsb = some y → x ≠ y) :
    ∃ st', foldBinaryStep st n = .ok st'
      ∧ getNode st' n
          = some ⟨nd.kind, nd.value, nd.parent, ld.lsb, rd.rsb, [l, r]⟩
      ∧ getNode st' p
          = some ⟨pd.kind, pd.value, pd.parent, pd.lsb, pd.rsb, A ++ n :: B⟩
      ∧ getNode st' l
          = some ⟨ld.kind, ld.value, some n, none, some r, ld.children⟩
      ∧ getNode st' r
          = some ⟨rd.kind, rd.value, some n, some l, none, rd.children⟩
      ∧ (∀ x xd, ld.lsb = some x → getNode st x = some xd →
          getNode st' x
            = some ⟨xd.kind, xd.value, xd.parent, xd.lsb, some n, xd.children⟩)
      ∧ (∀ x xd, rd.rsb = some x → getNode st x = some xd →
          getNode st' x
            = some ⟨xd.kind, xd.value, xd.parent, some n, xd.rsb, xd.children⟩) := by
  set st1 := make_sibling st (some n) rd.rsb with hst1
  have e1l : getNode st1 l = some ld := by
    rw [hst1, make_sibling_other st (some n) rd.rsb l
      (ne_of_some n l hnl.symm) (fun x hx => ((hrr x hx).2.1).symm)]
    exact h6
  set st2 := make_sibling st1 ld.lsb (some n) with hst2
  have e2p : getNode st2 p = some pd := by
    rw [hst2, make_sibling_other st1 ld.lsb (some n) p
      (fun x hx => ((hll x hx).2.2.2).symm) (ne_of_some n p hnp.symm)]
    rw [hst1, make_sibling_other st (some n) rd.rsb p
      (ne_of_some n p hnp.symm) (fun x hx => ((hrr x hx).2.2.2).symm)]
    exact h8
  have e2r : getNode st2 r = some rd := by
    rw [hst2, make_sibling_other st1 ld.lsb (some n) r
      (fun x hx => ((hll x hx).2.2.1).symm) (ne_of_some n r hnr.symm)]
    rw [hst1, make_sibling_other st (some n) rd.rsb r
      (ne_of_some n r hnr.symm) (fun x hx => ((hrr x hx).2.2.1).symm)]
    exact h7
  have e2l : getNode st2 l = some ld := by
    rw [hst2, make_sibling_other st1 ld.lsb (some n) l
      (fun x hx => ((hll x hx).2.1).symm) (ne_of_some n l hnl.symm)]
    exact e1l
  have e1n : getNode st1 n
      = some ⟨nd.kind, nd.value, nd.parent, nd.lsb, rd.rsb, nd.children⟩ := by
    rw [hst1]
    exact make_sibling_left st n rd.rsb nd h1 (fun x hx => (hrr x hx).1)
  have e2n : getNode st2 n
      = some ⟨nd.kind, nd.value, nd.parent, ld.lsb, rd.rsb, nd.children⟩ := by
    rw [hst2]
    exact make_sibling_right st1 ld.lsb n
      ⟨nd.kind, nd.value, nd.parent, nd.lsb, rd.rsb, nd.children⟩ e1n
      (fun x hx => (hll x hx).1)
  have hmem_r : r ∈ pd.children := by
    rw [h9]
    simp
  have hErase1 : pd.children.erase r = A ++ l :: n :: B := by
    rw [h9, List.erase_append_right _ hrA,
      List.erase_cons_tail (by simp [hlr] : ¬ (l == r)),
      List.erase_cons_tail (by simp [hnr] : ¬ (n == r)),
      List.erase_cons_head]
  set st3 := setNode st2 p ⟨pd.kind, pd.value, pd.parent, pd.lsb, pd.rsb,
      A ++ l :: n :: B⟩ with hst3
  have hrc1 : removeChild st2 p r = .ok st3 := by
    unfold removeChild
    simp only [e2p, if_pos hmem_r, hErase1]
  have hErase2 : (A ++ l :: n :: B).erase l = A ++ n :: B := by
    rw [List.erase_append_right _ hlA, List.erase_cons_head]
  set st4 := setNode st3 p ⟨pd.kind, pd.value, pd.parent, pd.lsb, pd.rsb,
      A ++ n :: B⟩ with hst4
  have hrc2 : removeChild st3 p l = .ok st4 := by
    unfold removeChild
    have e3p : getNode st3 p = some ⟨pd.kind, pd.value, pd.parent, pd.lsb, pd.rsb,
        A ++ l :: n :: B⟩ := by
      rw [hst3, getNode_setNode, if_pos rfl]
    simp only [e3p, if_pos (show l ∈ A ++ l :: n :: B by simp), hErase2]
  have e4r : getNode st4 r = some rd := by
    rw [hst4, getNode_setNode, if_neg hrp, hst3, getNode_setNode, if_neg hrp]
    exact e2r
  set st5 := setNode st4 r ⟨rd.kind, rd.value, some n, rd.lsb, rd.rsb,
      rd.children⟩ with hst5
  have e5l : getNode st5 l = some ld := by
    rw [hst5, getNode_setNode, if_neg hlr, hst4, getNode_setNode, if_neg hlp,
      hst3, getNode_setNode, if_neg hlp]
    exact e2l
  set st6 := setNode st5 l ⟨ld.kind, ld.value, some n, ld.lsb, ld.rsb,
      ld.children⟩ with hst6
  set st7 := make_sibling st6 (some l) (some r) with hst7
  have e6r : getNode st6 r = some ⟨rd.kind, rd.value, some n, rd.lsb, rd.rsb,
      rd.children⟩ := by
    rw [hst6, getNode_setNode, if_neg (fun h => hlr h.symm), hst5,
      getNode_setNode, if_pos rfl]
  have e7r : getNode st7 r
      = some ⟨rd.kind, rd.value, some n, some l, rd.rsb, rd.children⟩ := by
    rw [hst7]
    exact make_sibling_right st6 (some l) r
      ⟨rd.kind, rd.value, some n, rd.lsb, rd.rsb, rd.children⟩ e6r
      (ne_of_some2 l r hlr)
  set st8 := setNode st7 r ⟨rd.kind, rd.value, some n, some l, none,
      rd.children⟩ with hst8
  have e6l : getNode st6 l = some ⟨ld.kind, ld.value, some n, ld.lsb, ld.rsb,
      ld.children⟩ := by
    rw [hst6, getNode_setNode, if_pos rfl]
  have e8l : getNode st8 l
      = some ⟨ld.kind, ld.value, some n, ld.lsb, some r, ld.children⟩ := by
    rw [hst8, getNode_setNode, if_neg hlr, hst7]
    exact make_sibling_left st6 l (some r)
      ⟨ld.kind, ld.value, some n, ld.lsb, ld.rsb, ld.children⟩ e6l
      (ne_of_some2 r l hlr.symm)
  set st9 := setNode st8 l ⟨ld.kind, ld.value, some n, none, some r,
      ld.children⟩ with hst9
  have e9n : getNode st9 n
      = some ⟨nd.kind, nd.value, nd.parent, ld.lsb, rd.rsb, nd.children⟩ := by
    rw [hst9, getNode_setNode, if_neg hnl, hst8, getNode_setNode, if_neg hnr,
      hst7, make_sibling_other st6 (some l) (some r) n
        (ne_of_some l n hnl) (ne_of_some r n hnr),
      hst6, getNode_setNode, if_neg hnl, hst5, getNode_setNode, if_neg hnr,
      hst4, getNode_setNode, if_neg hnp, hst3, getNode_setNode, if_neg hnp]
    exact e2n
  set stF := setNode st9 n ⟨nd.kind, nd.value, nd.parent, ld.lsb, rd.rsb,
      nd.children ++ [l, r]⟩ with hstF
  have hfold : foldBinaryStep st n = .ok stF := by
    unfold foldBinaryStep
    simp only [h1, h3, h2, h7]
    rw [← hst1]
    simp only [e1l]
    rw [← hst2, h4]
    simp only [hrc1, except_bind_ok]
    simp only [hrc2, except_bind_ok]
    simp only [e4r]
    rw [← hst5]
    simp only [e5l]
    rw [← hst6, ← hst7]
    simp only [e7r]
    rw [← hst8]
    simp only [e8l]
    rw [← hst9]
    simp only [e9n]
  refine ⟨stF, hfold, ?_, ?_, ?_, ?_, ?_, ?_⟩
  · rw [hstF, getNode_setNode, if_pos rfl, h5]
    rfl
  · rw [hstF, getNode_setNode, if_neg (fun h => hnp h.symm),
      hst9, getNode_setNode, if_neg (fun h => hlp h.symm),
      hst8, getNode_setNode, if_neg (fun h => hrp h.symm),
      hst7, make_sibling_other st6 (some l) (some r) p
        (ne_of_some l p hlp.symm) (ne_of_some r p hrp.symm),
      hst6, getNode_setNode, if_neg (fun h => hlp h.symm),
      hst5, getNode_setNode, if_neg (fun h => hrp h.symm),
      hst4, getNode_setNode, if_pos rfl]
  · rw [hstF, getNode_setNode, if_neg (fun h => hnl h.symm),
      hst9, getNode_setNode, if_pos rfl]
  · rw [hstF, getNode_setNode, if_neg (fun h => hnr h.symm),
      hst9, getNode_setNode, if_neg (fun h => hlr h.symm),
      hst8, getNode_setNode, if_pos rfl]
  · intro x xd hx hxd
    have hxne := hll x hx
    rw [hstF, getNode_setNode, if_neg hxne.1,
      hst9, getNode_setNode, if_neg hxne.2.1,
      hst8, getNode_setNode, if_neg hxne.2.2.1,
      hst7, make_sibling_other st6 (some l) (some r) x
        (ne_of_some l x hxne.2.1)
        (ne_of_some r x hxne.2.2.1),
      hst6, getNode_setNode, if_neg hxne.2.1,
      hst5, getNode_setNode, if_neg hxne.2.2.1,
      hst4, getNode_setNode, if_neg hxne.2.2.2,
      hst3, getNode_setNode, if_neg hxne.2.2.2,
      hst2, hx]
    have e1x : getNode st1 x = some xd := by
      rw [hst1, make_sibling_other st (some n) rd.rsb x
        (ne_of_some n x hxne.1)
        (fun y hy => hllrr x y hx hy)]
      exact hxd
    exact make_sibling_left st1 x (some n) xd e1x
      (ne_of_some2 n x (fun h => hxne.1 h.symm))
  · intro x xd hx hxd
    have hxne := hrr x hx
    rw [hstF, getNode_setNode, if_neg hxne.1,
      hst9, getNode_setNode, if_neg hxne.2.1,
      hst8, getNode_setNode, if_neg hxne.2.2.1,
      hst7, make_sibling_other st6 (some l) (some r) x
        (ne_of_some l x hxne.2.1)
        (ne_of_some r x hxne.2.2.1),
      hst6, getNode_setNode, if_neg hxne.2.1,
      hst5, getNode_setNode, if_neg hxne.2.2.1,
      hst4, getNode_setNode, if_neg hxne.2.2.2,
      hst3, getNode_setNode, if_neg hxne.2.2.2,
      hst2, make_sibling_other st1 ld.lsb (some n) x
        (fun y hy => (hllrr y x hy hx).symm)
        (ne_of_some n x hxne.1),
      hst1, hx]
    exact make_sibling_right st (some n) x xd hxd
      (ne_of_some2 n x (fun h => hxne.1 h.symm))


/-- C2 witness: folding the recorded `-or` (node 5) of
`find . -name a -or -name b` absorbs the two `-name` flag nodes 3 and 6
as its children, leaving `find` with children `[., -or]`. -/
theorem claim_C2_witness :
    ∃ st', foldBinaryStep demoPreFoldSt 5 = .ok st'
      ∧ getNode st' 5
          = some ⟨"binarylogicop", "-or", some 1, some 2, none, [3, 6]⟩
      ∧ getNode st' 1
          = some ⟨"headcommand", "find", some 0, none, none, [2] ++ 5 :: []⟩
      ∧ getNode st' 3 = some ⟨"flag", "-name", some 5, none, some 6, [4]⟩
      ∧ getNode st' 6 = some ⟨"flag", "-name", some 5, some 3, none, [7]⟩ := by
  obtain ⟨st', hfold, hn, hp, hl, hr, hllc, hrrc⟩ :=
    claim_C2_binary_fold demoPreFoldSt 5 3 6 1 [2] []
      ⟨"binarylogicop", "-or", some 1, some 3, some 6, []⟩
      ⟨"flag", "-name", some 1, some 2, some 5, [4]⟩
      ⟨"flag", "-name", some 1, some 5, none, [7]⟩
      ⟨"headcommand", "find", some 0, none, none, [2, 3, 5, 6]⟩
      rfl rfl rfl rfl rfl rfl rfl rfl rfl
      (by decide) (by decide) (by decide) (by decide) (by decide) (by decide)
      (by decide) (by decide)
      (fun x hx => by
        injection hx with hx
        subst hx
        exact ⟨by decide, by decide, by decide, by decide⟩)
      (fun x hx => nomatch hx)
      (fun x y hx hy => nomatch hy)
  exact ⟨st', hfold, hn, hp, hl, hr⟩


end Normalizer
